import Mathlib

/-!
Verification development for the hisui recording composition tool.

The definitions below are a shallow embedding of the parts of the C++
source that the verified properties talk about:

* `src/muxer/muxer.cpp` (`Muxer::mux`): the consumer loop that interleaves
  encoded audio and video frames into the output container;
* `src/muxer/no_video_producer.cpp`: the producer used in audio-only mode;
* `src/layout/metadata.cpp` (`Metadata::prepare`): resolution rounding and
  trim-interval selection;
* `src/layout/cell.cpp`: the cell state machine;
* `src/muxer/async_webm_muxer.cpp`, `src/muxer/mp4_muxer.cpp`,
  `src/muxer/multi_channel_faststart_mp4_muxer.cpp`,
  `src/layout/async_webm_muxer.cpp`: output-filename defaulting and the
  Opus pre-skip handed to the container;
* `src/hisui.cpp` and `src/layout/compose.cpp`: report file naming.

Machine integers of the C++ code (u64 timestamps, u32 dimensions) are
modelled as `Nat`; all values handled stay far below 2 to the 64, except
the explicit u64 sentinel `U64_MAX`, so wrap-around never occurs and the
comparisons agree with the machine ones.
-/

namespace Hisui

/-- An encoded media frame as seen by the muxer loop. Only the timestamp
takes part in the control flow of `Muxer::mux` (src/muxer/muxer.cpp), so
the payload bytes are omitted. -/
structure Frame where
  timestamp : Nat
deriving DecidableEq, Repr

/-- One producer thread together with its SPSC output queue, abstracted to
the data the muxer loop can observe: the frames already pushed to the
queue (front first), the frames the thread will still push, and the
`m_is_finished` flag the thread sets after its final push. -/
structure Producer where
  queue : List Frame
  pending : List Frame
  flag : Bool
deriving DecidableEq, Repr

/-- Modelled from the spec: the headers `muxer/audio_producer.hpp` and
`muxer/video_producer.hpp` are absent from the source snapshot, and the
spec (section 4.4.3) renders the done test of a producer as
`is_finished && queue.empty`. -/
def Producer.isFinished (p : Producer) : Bool :=
  p.flag && p.queue.isEmpty

/-- One scheduling quantum of a producer thread: push the next pending
frame to the back of the queue, or raise `m_is_finished` once everything
has been pushed (`VideoProducer::produce` / `AudioProducer::produce`,
e.g. src/muxer/multi_channel_vpx_video_producer.cpp lines 137-140). -/
def Producer.produceStep (p : Producer) : Producer :=
  match p.pending with
  | [] => { p with flag := true }
  | f :: rest => { p with queue := p.queue ++ [f], pending := rest }

/-- A call the muxer loop makes on the container: `appendAudio` or
`appendVideo` with the consumed queue head. -/
inductive Append where
  | audio (f : Frame)
  | video (f : Frame)
deriving DecidableEq, Repr

/-- The state of `Muxer::mux`: the two producers, the loop-local
`video_finished` flag, and the sequence of container append calls made so
far (oldest first). -/
structure MuxState where
  audio : Producer
  video : Producer
  videoFinished : Bool
  out : List Append
deriving DecidableEq, Repr

/-- One iteration of the main `while (!m_audio_producer->isFinished())`
loop of `Muxer::mux` (src/muxer/muxer.cpp lines 40-81).  An iteration that
only sleeps (empty audio queue, or video queue empty while the video
producer is still running) leaves the state unchanged.  `m_timescale_ratio`
is a `boost::rational`, embedded as `ratio : ℚ`; the comparison
`video_front.timestamp * m_timescale_ratio <= audio_timestamp` is the
exact rational comparison. -/
def muxStep (ratio : ℚ) (s : MuxState) : MuxState :=
  match s.audio.queue with
  | [] => s
  | af :: arest =>
    if s.videoFinished then
      { s with audio := { s.audio with queue := arest },
               out := s.out ++ [Append.audio af] }
    else if s.video.isFinished then
      { s with videoFinished := true,
               audio := { s.audio with queue := arest },
               out := s.out ++ [Append.audio af] }
    else
      match s.video.queue with
      | [] => s
      | vf :: vrest =>
        if (vf.timestamp : ℚ) * ratio ≤ (af.timestamp : ℚ) then
          { s with video := { s.video with queue := vrest },
                   out := s.out ++ [Append.video vf] }
        else
          { s with audio := { s.audio with queue := arest },
                   out := s.out ++ [Append.audio af] }

/-- One iteration of the trailing `while (!m_video_producer->isFinished())`
drain loop of `Muxer::mux` (src/muxer/muxer.cpp lines 95-103). -/
def drainStep (s : MuxState) : MuxState :=
  match s.video.queue with
  | [] => s
  | vf :: vrest =>
    { s with video := { s.video with queue := vrest },
             out := s.out ++ [Append.video vf] }

/-- A single step of the whole pipeline: either producer thread makes
progress, or the muxer thread runs one iteration of whichever of its two
loops is active.  The guards are the loop conditions of `Muxer::mux`; the
drain loop can only run after the audio loop ended (`audio.isFinished`)
and only when `video_finished` was not raised inside the audio loop. -/
inductive SysStep (ratio : ℚ) : MuxState → MuxState → Prop where
  | produceAudio (s : MuxState) :
      SysStep ratio s { s with audio := s.audio.produceStep }
  | produceVideo (s : MuxState) :
      SysStep ratio s { s with video := s.video.produceStep }
  | mux (s : MuxState) (h : s.audio.isFinished = false) :
      SysStep ratio s (muxStep ratio s)
  | drain (s : MuxState) (h1 : s.audio.isFinished = true)
      (h2 : s.videoFinished = false) (h3 : s.video.isFinished = false) :
      SysStep ratio s (drainStep s)

/-- Reachability of one pipeline state from another by any interleaving of
producer and muxer steps. -/
def Reach (ratio : ℚ) : MuxState → MuxState → Prop :=
  Relation.ReflTransGen (SysStep ratio)

/-- A producer at thread start: nothing pushed yet, everything pending,
`m_is_finished` false. -/
def initProducer (frames : List Frame) : Producer :=
  { queue := [], pending := frames, flag := false }

/-- The producer built by `NoVideoProducer::NoVideoProducer`
(src/muxer/no_video_producer.cpp lines 19-21): `m_is_finished` is true
from construction, the queue is empty and nothing is ever produced. -/
def noVideoProducer : Producer :=
  { queue := [], pending := [], flag := true }

/-- The muxer state right before the loop of `Muxer::mux` starts:
no appends yet and `video_finished = false` (src/muxer/muxer.cpp line 31). -/
def initState (a v : Producer) : MuxState :=
  { audio := a, video := v, videoFinished := false, out := [] }

/-- Timestamps of a frame list, in order. -/
def tsList (fs : List Frame) : List Nat :=
  fs.map Frame.timestamp

/-- Timestamps of the audio frames among the container append calls, in
call order. -/
def outAudioTs (out : List Append) : List Nat :=
  out.filterMap fun e =>
    match e with
    | Append.audio f => some f.timestamp
    | Append.video _ => none

/-- Timestamps of the video frames among the container append calls, in
call order. -/
def outVideoTs (out : List Append) : List Nat :=
  out.filterMap fun e =>
    match e with
    | Append.video f => some f.timestamp
    | Append.audio _ => none

/-- The audio frames already appended, followed by the audio frames still
queued or pending: an interleaving invariant keeps this list constant. -/
def audioTrace (s : MuxState) : List Nat :=
  outAudioTs s.out ++ tsList s.audio.queue ++ tsList s.audio.pending

/-- The video counterpart of `audioTrace`. -/
def videoTrace (s : MuxState) : List Nat :=
  outVideoTs s.out ++ tsList s.video.queue ++ tsList s.video.pending

/-- Timestamp the AV1 encoder attaches to the encoded frame with picture
order count `pts`: `pts * m_timescale * m_fps.denominator() / m_fps.numerator()`
(src/video/buffer_av1_encoder.cpp lines 148-150); the VPX and OpenH264
encoders use the same formula. -/
def encoderFrameTimestamp (timescale den num pts : Nat) : Nat :=
  pts * timescale * den / num

/-- Selection of the trim intervals actually applied by `Metadata::prepare`
(src/layout/metadata.cpp lines 209-219): with `trim = true` the whole
computed list, otherwise only its first interval and only when that
interval starts at 0. -/
def applyTrimSetting (trim : Bool) (tis : List (Nat × Nat)) : List (Nat × Nat) :=
  if trim then tis
  else
    match tis with
    | [] => []
    | t0 :: _ => if t0.1 = 0 then [t0] else []

/-- Resolution check of `Metadata::prepare` (src/layout/metadata.cpp lines
159-170): both dimensions are first rounded down to a multiple of 4 by
`(x >> 2) << 2`, then an exception is thrown when a rounded dimension is
below 16; otherwise the rounded resolution is kept. -/
def prepareResolution (w h : Nat) : Except String (Nat × Nat) :=
  let w2 := (w >>> 2) <<< 2
  let h2 := (h >>> 2) <<< 2
  if w2 < 16 then Except.error "width is too small"
  else if h2 < 16 then Except.error "height is too small"
  else Except.ok (w2, h2)

/-- Modelled from the spec: `constants.hpp` is absent from the source
snapshot; the spec fixes nanoseconds as the internal unit (section 3,
Time) and PCM at 48000 Hz, so `Constants::NANO_SECOND = 10 ^ 9` and
`Constants::PCM_SAMPLE_RATE = 48000`. -/
def NANO_SECOND : Nat := 1000000000

/-- Modelled from the spec: see `NANO_SECOND`. -/
def PCM_SAMPLE_RATE : Nat := 48000

/-- Codec delay passed to `m_context->setAudioTrack` by
`AsyncWebMMuxer::setUp` (src/muxer/async_webm_muxer.cpp lines 101-106) and
by the layout WebM muxer (src/layout/async_webm_muxer.cpp lines 57-60):
the skip reported by the Opus encoder converted to nanoseconds. -/
def webmSetAudioTrackCodecDelay (skip : Nat) : Nat :=
  skip * NANO_SECOND / PCM_SAMPLE_RATE

/-- Pre-skip stored in the MP4 Opus track by `MP4Muxer::initialize`
(src/muxer/mp4_muxer.cpp lines 76-80): the raw skip sample count. -/
def mp4OpusTrackPreSkip (skip : Nat) : Nat :=
  skip

/-- Shallow model of `std::filesystem::path` restricted to what
`replace_extension` observes: everything before the extension, and the
extension itself (with its leading dot). -/
structure FsPath where
  stem : String
  extension : String
deriving DecidableEq, Repr

/-- Model of `path.replace_extension(e)`: the extension is swapped, the
rest of the path is kept. -/
def FsPath.replaceExtension (p : FsPath) (e : String) : FsPath :=
  { p with extension := e }

/-- Default output filename computed by `AsyncWebMMuxer::setUp` when
`out_filename` is empty (src/muxer/async_webm_muxer.cpp lines 54-62); the
layout WebM muxer (src/layout/async_webm_muxer.cpp lines 27-34) has the
same branch. -/
def asyncWebMDefaultOutFilename (metadataPath : FsPath) (audioOnly : Bool) : FsPath :=
  if audioOnly then metadataPath.replaceExtension ".weba"
  else metadataPath.replaceExtension ".webm"

/-- Default output filename computed by `MP4Muxer::initialize` when
`out_filename` is empty (src/muxer/mp4_muxer.cpp lines 42-46), the path
taken by both the simple and the faststart MP4 muxers.  The function
receives `config.audio_only` like the C++ code receives `config`, and like
the C++ code it does not consult it: the extension is always `.mp4`. -/
def mp4MuxerDefaultOutFilename (metadataPath : FsPath) (_audioOnly : Bool) : FsPath :=
  metadataPath.replaceExtension ".mp4"

/-- Default output filename computed by
`MultiChannelFaststartMP4Muxer::initialize` when `out_filename` is empty
(src/muxer/multi_channel_faststart_mp4_muxer.cpp lines 90-97). -/
def multiChannelFaststartMP4DefaultOutFilename (metadataPath : FsPath)
    (audioOnly : Bool) : FsPath :=
  if audioOnly then metadataPath.replaceExtension ".m4a"
  else metadataPath.replaceExtension ".mp4"

/-- Success report filename used by `main` outside layout mode
(src/hisui.cpp lines 215-219). -/
def mainSuccessReportFilename (utc recordingId : String) : String :=
  utc ++ "_" ++ recordingId ++ "_success.json"

/-- Failure report filename used by `main` outside layout mode
(src/hisui.cpp lines 196-199). -/
def mainFailureReportFilename (utc recordingId : String) : String :=
  utc ++ "_" ++ recordingId ++ "_failure.json"

/-- Success report filename used by `hisui::layout::compose`
(src/layout/compose.cpp lines 206-209): the literal token `layout` stands
where the recording id stands in the non-layout name. -/
def layoutSuccessReportFilename (utc : String) : String :=
  utc ++ "_layout_success.json"

/-- Failure report filename used by `hisui::layout::compose`
(src/layout/compose.cpp lines 189-192). -/
def layoutFailureReportFilename (utc : String) : String :=
  utc ++ "_layout_failure.json"

/-- Status of a layout cell (src/layout/cell.cpp). -/
inductive CellStatus where
  | Idle
  | Used
  | Excluded
deriving DecidableEq, Repr

/-- The part of a `VideoSource` that `Cell::setSource` reads: the encoding
interval, whose upper bound becomes the cell end time. -/
structure VideoSource where
  index : Nat
  encodingIntervalLower : Nat
  encodingIntervalUpper : Nat
deriving DecidableEq, Repr

/-- The value of `std::numeric_limits<std::uint64_t>::max()`. -/
def U64_MAX : Nat := 2 ^ 64 - 1

/-- A layout cell, restricted to the fields its state machine touches
(src/layout/cell.cpp); the geometry fields `index`, `pos` and
`resolution` are set at construction and never written again, so `index`
stands in for all of them. -/
structure Cell where
  index : Nat
  status : CellStatus
  source : Option VideoSource
  endTime : Nat
deriving DecidableEq, Repr

/-- The cell constructor `Cell::Cell` (src/layout/cell.cpp lines 10-21):
the status comes from the parameters and `m_end_time` is initialised to
the u64 maximum; `m_source` starts empty. -/
def Cell.mkInitial (index : Nat) (status : CellStatus) : Cell :=
  { index := index, status := status, source := none, endTime := U64_MAX }

/-- `Cell::setSource` (src/layout/cell.cpp lines 41-45). -/
def Cell.setSource (c : Cell) (s : VideoSource) : Cell :=
  { c with status := CellStatus.Used, source := some s,
           endTime := s.encodingIntervalUpper }

/-- `Cell::resetSource` (src/layout/cell.cpp lines 47-53). -/
def Cell.resetSource (c : Cell) (time : Nat) : Cell :=
  if time ≥ c.endTime then
    { c with status := CellStatus.Idle, source := none, endTime := U64_MAX }
  else c

/-- `Cell::setExcludedStatus` (src/layout/cell.cpp lines 58-60). -/
def Cell.setExcludedStatus (c : Cell) : Cell :=
  { c with status := CellStatus.Excluded }

/-- Cell states reachable through the lifecycle of the layout planner.
Construction statuses and the use of `setExcludedStatus` are modelled from
the spec, since `region.cpp` and `cell.hpp` are absent from the source
snapshot: a cell is created Idle, or Excluded for indices listed in
`cells_excluded` (spec, Cell lifecycle), and `setExcludedStatus` is only
applied while the cell is idle during region preparation; `setSource` and
`resetSource` are the transitions of src/layout/cell.cpp. -/
inductive CellReachable : Cell → Prop where
  | construct (index : Nat) (status : CellStatus)
      (h : status ≠ CellStatus.Used) : CellReachable (Cell.mkInitial index status)
  | set (c : Cell) (s : VideoSource) (h : CellReachable c) :
      CellReachable (c.setSource s)
  | reset (c : Cell) (t : Nat) (h : CellReachable c) :
      CellReachable (c.resetSource t)
  | exclude (c : Cell) (h : CellReachable c)
      (hIdle : c.status = CellStatus.Idle) : CellReachable c.setExcludedStatus

/-! Helper lemmas about the append projections. -/

theorem outAudioTs_append (l1 l2 : List Append) :
    outAudioTs (l1 ++ l2) = outAudioTs l1 ++ outAudioTs l2 := by
  simp [outAudioTs, List.filterMap_append]

theorem outVideoTs_append (l1 l2 : List Append) :
    outVideoTs (l1 ++ l2) = outVideoTs l1 ++ outVideoTs l2 := by
  simp [outVideoTs, List.filterMap_append]

theorem outAudioTs_audio (f : Frame) : outAudioTs [Append.audio f] = [f.timestamp] :=
  rfl

theorem outAudioTs_video (f : Frame) : outAudioTs [Append.video f] = [] :=
  rfl

theorem outVideoTs_audio (f : Frame) : outVideoTs [Append.audio f] = [] :=
  rfl

theorem outVideoTs_video (f : Frame) : outVideoTs [Append.video f] = [f.timestamp] :=
  rfl

/-- A single pipeline step never reorders, drops or invents frames: the
appended-then-still-owed frame list of each kind is unchanged. -/
theorem sysStep_trace_eq {ratio : ℚ} {s s' : MuxState} (h : SysStep ratio s s') :
    audioTrace s' = audioTrace s ∧ videoTrace s' = videoTrace s := by
  cases h with
  | produceAudio =>
      cases hp : s.audio.pending with
      | nil =>
          simp [audioTrace, videoTrace, Producer.produceStep, hp]
      | cons f rest =>
          simp [audioTrace, videoTrace, Producer.produceStep, hp, tsList]
  | produceVideo =>
      cases hp : s.video.pending with
      | nil =>
          simp [audioTrace, videoTrace, Producer.produceStep, hp]
      | cons f rest =>
          simp [audioTrace, videoTrace, Producer.produceStep, hp, tsList]
  | mux hfin =>
      unfold muxStep
      cases hq : s.audio.queue with
      | nil => exact ⟨rfl, rfl⟩
      | cons af arest =>
          by_cases hvf : s.videoFinished
          · simp [hvf, audioTrace, videoTrace, outAudioTs_append, outVideoTs_append,
              outAudioTs_audio, outVideoTs_audio, hq, tsList]
          · by_cases hvdone : s.video.isFinished
            · simp [hvf, hvdone, audioTrace, videoTrace, outAudioTs_append,
                outVideoTs_append, outAudioTs_audio, outVideoTs_audio, hq, tsList]
            · cases hvq : s.video.queue with
              | nil => simp [hvf, hvdone, hvq]
              | cons vf vrest =>
                  by_cases hcmp : (vf.timestamp : ℚ) * ratio ≤ (af.timestamp : ℚ)
                  · simp [hvf, hvdone, hvq, hcmp, audioTrace, videoTrace,
                      outAudioTs_append, outVideoTs_append, outAudioTs_video,
                      outVideoTs_video, tsList]
                  · simp [hvf, hvdone, hvq, hcmp, audioTrace, videoTrace,
                      outAudioTs_append, outVideoTs_append, outAudioTs_audio,
                      outVideoTs_audio, hq, tsList]
  | drain h1 h2 h3 =>
      unfold drainStep
      cases hvq : s.video.queue with
      | nil => exact ⟨rfl, rfl⟩
      | cons vf vrest =>
          simp [audioTrace, videoTrace, outAudioTs_append, outVideoTs_append,
            outAudioTs_video, outVideoTs_video, hvq, tsList]

/-- Trace preservation along any reachable execution. -/
theorem reach_trace_eq {ratio : ℚ} {s s' : MuxState} (h : Reach ratio s s') :
    audioTrace s' = audioTrace s ∧ videoTrace s' = videoTrace s := by
  induction h with
  | refl => exact ⟨rfl, rfl⟩
  | tail hab hbc ih =>
      obtain ⟨h1, h2⟩ := sysStep_trace_eq hbc
      exact ⟨h1.trans ih.1, h2.trans ih.2⟩

/-- When the video producer reports finished, a main-loop iteration leaves
the video producer untouched and can only append an audio frame. -/
theorem muxStep_video_done {ratio : ℚ} {s : MuxState}
    (hvdone : s.video.isFinished = true) :
    (muxStep ratio s).video = s.video ∧
      ((muxStep ratio s).out = s.out ∨
        ∃ f, (muxStep ratio s).out = s.out ++ [Append.audio f]) := by
  unfold muxStep
  cases haq : s.audio.queue with
  | nil => exact ⟨rfl, Or.inl rfl⟩
  | cons af arest =>
      by_cases hvf : s.videoFinished
      · refine ⟨?_, Or.inr ⟨af, ?_⟩⟩ <;> simp [hvf]
      · refine ⟨?_, Or.inr ⟨af, ?_⟩⟩ <;> simp [hvf, hvdone]

/-- Invariant of a run started with `noVideoProducer`: the video producer
stays finished with an empty queue and nothing pending, and every
container call made so far is an audio append. -/
theorem reach_noVideo_inv (A : List Frame) (ratio : ℚ) (s : MuxState)
    (h : Reach ratio (initState (initProducer A) noVideoProducer) s) :
    s.video.queue = [] ∧ s.video.pending = [] ∧ s.video.flag = true ∧
      ∀ e ∈ s.out, ∃ f, e = Append.audio f := by
  induction h with
  | refl =>
      refine ⟨rfl, rfl, rfl, ?_⟩
      intro e he
      simp [initState] at he
  | tail hab hbc ih =>
      obtain ⟨hq, hp, hf, hout⟩ := ih
      cases hbc with
      | produceAudio => exact ⟨hq, hp, hf, hout⟩
      | produceVideo =>
          refine ⟨?_, ?_, ?_, hout⟩ <;> simp [Producer.produceStep, hp, hq]
      | mux hfin =>
          rename_i b
          have hvdone : b.video.isFinished = true := by
            simp [Producer.isFinished, hq, hf]
          obtain ⟨hv, hor⟩ := @muxStep_video_done ratio b hvdone
          refine ⟨?_, ?_, ?_, ?_⟩
          · rw [hv]; exact hq
          · rw [hv]; exact hp
          · rw [hv]; exact hf
          · intro e he
            rcases hor with hoe | ⟨f, hoe⟩
            · exact hout e (hoe ▸ he)
            · rw [hoe] at he
              rcases List.mem_append.mp he with h1 | h1
              · exact hout e h1
              · exact ⟨f, List.mem_singleton.mp h1⟩
      | drain h1 h2 h3 =>
          rename_i b
          have : b.video.isFinished = true := by
            simp [Producer.isFinished, hq, hf]
          rw [this] at h3
          cases h3

/-- C1: at every iteration of the main muxer loop in which the local
`video_finished` flag is down and both queue heads are available (which
also forces both producer done tests to be false), exactly one frame is
appended: the video head when its timestamp multiplied by the timescale
ratio is at most the audio head timestamp, otherwise the audio head; ties
go to video. -/
theorem mux_loop_head_comparison (ratio : ℚ) (s : MuxState) (af vf : Frame)
    (arest vrest : List Frame) (hvfin : s.videoFinished = false)
    (ha : s.audio.queue = af :: arest) (hv : s.video.queue = vf :: vrest) :
    ((vf.timestamp : ℚ) * ratio ≤ (af.timestamp : ℚ) →
      muxStep ratio s = { s with video := { s.video with queue := vrest },
                                 out := s.out ++ [Append.video vf] }) ∧
    (¬ (vf.timestamp : ℚ) * ratio ≤ (af.timestamp : ℚ) →
      muxStep ratio s = { s with audio := { s.audio with queue := arest },
                                 out := s.out ++ [Append.audio af] }) := by
  have hnotdone : s.video.isFinished = false := by
    simp [Producer.isFinished, hv]
  constructor <;> intro hcmp <;>
    simp [muxStep, ha, hv, hvfin, hnotdone, hcmp]

/-- Witness for C1 at a concrete state: video head 3 against audio head 5
with ratio 1, so the video frame is appended and the audio queue is kept. -/
theorem mux_loop_head_comparison_witness :
    muxStep 1 { audio := { queue := [Frame.mk 5], pending := [], flag := false },
                video := { queue := [Frame.mk 3], pending := [], flag := false },
                videoFinished := false, out := [] } =
      { audio := { queue := [Frame.mk 5], pending := [], flag := false },
        video := { queue := [], pending := [], flag := false },
        videoFinished := false, out := [Append.video (Frame.mk 3)] } :=
  (mux_loop_head_comparison 1
    { audio := { queue := [Frame.mk 5], pending := [], flag := false },
      video := { queue := [Frame.mk 3], pending := [], flag := false },
      videoFinished := false, out := [] }
    (Frame.mk 5) (Frame.mk 3) [] [] rfl rfl rfl).1 (by norm_num)

/-- C2: in every run of the muxer over producers that push their frames in
non-decreasing timestamp order, the audio frames are appended to the
container in non-decreasing timestamp order, and so are the video frames:
the loop consumes each queue strictly front to back. -/
theorem muxer_appends_monotone (A V : List Frame) (ratio : ℚ) (s : MuxState)
    (hA : List.Sorted (· ≤ ·) (tsList A)) (hV : List.Sorted (· ≤ ·) (tsList V))
    (h : Reach ratio (initState (initProducer A) (initProducer V)) s) :
    List.Sorted (· ≤ ·) (outAudioTs s.out) ∧
      List.Sorted (· ≤ ·) (outVideoTs s.out) := by
  obtain ⟨h1, h2⟩ := reach_trace_eq h
  have hA2 : outAudioTs s.out ++ (tsList s.audio.queue ++ tsList s.audio.pending)
      = tsList A := by
    simpa [audioTrace, initState, initProducer, tsList, List.append_assoc] using h1
  have hV2 : outVideoTs s.out ++ (tsList s.video.queue ++ tsList s.video.pending)
      = tsList V := by
    simpa [videoTrace, initState, initProducer, tsList, List.append_assoc] using h2
  have hApre : List.IsPrefix (outAudioTs s.out) (tsList A) := ⟨_, hA2⟩
  have hVpre : List.IsPrefix (outVideoTs s.out) (tsList V) := ⟨_, hV2⟩
  exact ⟨hA.sublist hApre.sublist, hV.sublist hVpre.sublist⟩

/-- Witness for C2 at the initial state of a concrete run with sorted
producer traces. -/
theorem muxer_appends_monotone_witness :
    List.Sorted (· ≤ ·)
      (outAudioTs (initState (initProducer [Frame.mk 0, Frame.mk 20])
        (initProducer [Frame.mk 0])).out) ∧
    List.Sorted (· ≤ ·)
      (outVideoTs (initState (initProducer [Frame.mk 0, Frame.mk 20])
        (initProducer [Frame.mk 0])).out) :=
  muxer_appends_monotone [Frame.mk 0, Frame.mk 20] [Frame.mk 0] 1 _
    (by decide) (by decide) Relation.ReflTransGen.refl

/-- C9: in audio-only mode the video producer is the `NoVideoProducer`,
whose finished flag is true from construction and whose queue is empty,
and in every run started with it every container append call is an audio
append. -/
theorem audio_only_all_appends_audio (A : List Frame) (ratio : ℚ) (s : MuxState)
    (h : Reach ratio (initState (initProducer A) noVideoProducer) s) :
    noVideoProducer.flag = true ∧ noVideoProducer.queue = [] ∧
      ∀ e ∈ s.out, ∃ f, e = Append.audio f :=
  ⟨rfl, rfl, (reach_noVideo_inv A ratio s h).2.2.2⟩

/-- Witness for C9 on a concrete two-step run (the audio producer pushes
one frame, then the muxer appends it). -/
theorem audio_only_all_appends_audio_witness :
    noVideoProducer.flag = true ∧ noVideoProducer.queue = [] ∧
      ∀ e ∈ (muxStep 1 { initState (initProducer [Frame.mk 7]) noVideoProducer with
        audio := (initProducer [Frame.mk 7]).produceStep }).out,
        ∃ f, e = Append.audio f :=
  audio_only_all_appends_audio [Frame.mk 7] 1 _
    (Relation.ReflTransGen.tail
      (Relation.ReflTransGen.single (SysStep.produceAudio _))
      (SysStep.mux _ rfl))

/-- C3: with `trim = false` the applied trim list is either empty or the
single first computed interval, and only when that interval starts at
time 0; every later computed interval is discarded. -/
theorem trim_false_keeps_only_initial (tis : List (Nat × Nat)) :
    applyTrimSetting false tis = [] ∨
      ∃ hi, tis.head? = some (0, hi) ∧ applyTrimSetting false tis = [(0, hi)] := by
  unfold applyTrimSetting
  cases tis with
  | nil => exact Or.inl rfl
  | cons t0 rest =>
      obtain ⟨a, b⟩ := t0
      by_cases h0 : a = 0
      · subst h0
        exact Or.inr ⟨b, rfl, by simp⟩
      · exact Or.inl (by simp [h0])

/-- C4: the WebM muxer passes the Opus skip to `setAudioTrack` converted
to nanoseconds as `skip * 10 ^ 9 / 48000`, the MP4 muxer stores the raw
skip sample count as the Opus track pre-skip; the nanosecond value equals
the skip duration at 48 kHz up to the truncation of the integer division. -/
theorem opus_skip_to_container (skip : Nat) :
    webmSetAudioTrackCodecDelay skip = skip * 1000000000 / 48000 ∧
    mp4OpusTrackPreSkip skip = skip ∧
    webmSetAudioTrackCodecDelay skip * 48000 ≤ skip * 1000000000 ∧
    skip * 1000000000 < webmSetAudioTrackCodecDelay skip * 48000 + 48000 := by
  unfold webmSetAudioTrackCodecDelay mp4OpusTrackPreSkip NANO_SECOND PCM_SAMPLE_RATE
  refine ⟨rfl, rfl, ?_, ?_⟩ <;> omega

/-- C5: `setSource` makes a cell Used with the end time taken from the
upper bound of the encoding interval of the source; `resetSource` at a
time at or past the end time makes the cell Idle, clears the source and
restores the u64-maximum end time; and in every reachable cell state a
cell that is not Used carries the u64-maximum end time. -/
theorem cell_lifecycle (c : Cell) (s : VideoSource) (t : Nat)
    (hend : c.endTime ≤ t) :
    ((c.setSource s).status = CellStatus.Used ∧
      (c.setSource s).endTime = s.encodingIntervalUpper ∧
      (c.setSource s).source = some s) ∧
    (c.resetSource t =
      { c with status := CellStatus.Idle, source := none, endTime := U64_MAX }) ∧
    (∀ c', CellReachable c' → c'.status ≠ CellStatus.Used →
      c'.endTime = U64_MAX) := by
  refine ⟨⟨rfl, rfl, rfl⟩, ?_, ?_⟩
  · unfold Cell.resetSource
    rw [if_pos hend]
  · intro c' hreach
    induction hreach with
    | construct i st hst => intro _; rfl
    | set d sd hd ih => intro hne; exact absurd rfl hne
    | reset d td hd ih =>
        intro hne
        unfold Cell.resetSource at hne ⊢
        by_cases hge : d.endTime ≤ td
        · rw [if_pos hge]
        · rw [if_neg hge] at hne ⊢
          exact ih hne
    | exclude d hd hIdle ih =>
        intro _
        exact ih (by simp [hIdle])

/-- Witness for C5: the lifecycle theorem applied to a freshly constructed
idle cell, a source ending at 42, and a release time past the u64-maximum
end time; the invariant part applied to a freshly constructed excluded
cell. -/
theorem cell_lifecycle_witness :
    ((Cell.mkInitial 0 CellStatus.Idle).resetSource (2 ^ 64) =
      { index := 0, status := CellStatus.Idle,
        source := none, endTime := U64_MAX }) ∧
    (Cell.mkInitial 3 CellStatus.Excluded).endTime = U64_MAX :=
  ⟨(cell_lifecycle (Cell.mkInitial 0 CellStatus.Idle) ⟨0, 0, 42⟩ (2 ^ 64)
      (by decide)).2.1,
   (cell_lifecycle (Cell.mkInitial 0 CellStatus.Idle) ⟨0, 0, 42⟩ (2 ^ 64)
      (by decide)).2.2 (Cell.mkInitial 3 CellStatus.Excluded)
      (CellReachable.construct 3 CellStatus.Excluded (by decide)) (by decide)⟩

/-- The resolution check written with the rounding expressed through
division: `(x >> 2) << 2` is `x / 4 * 4`. -/
theorem prepareResolution_eq (w h : Nat) :
    prepareResolution w h =
      if w / 4 * 4 < 16 then Except.error "width is too small"
      else if h / 4 * 4 < 16 then Except.error "height is too small"
      else Except.ok (w / 4 * 4, h / 4 * 4) := by
  unfold prepareResolution
  norm_num [Nat.shiftRight_eq_div_pow, Nat.shiftLeft_eq]

/-- C6: layout preparation rounds each requested dimension down to the
nearest multiple of 4 and throws exactly when a rounded dimension is below
16; equivalently, the configuration is accepted exactly when both
requested dimensions are at least 16. -/
theorem resolution_rounding_and_min (w h : Nat) :
    ((prepareResolution w h).isOk = true ↔ (16 ≤ w ∧ 16 ≤ h)) ∧
    ((∃ e, prepareResolution w h = Except.error e) ↔
      ((w >>> 2) <<< 2 < 16 ∨ (h >>> 2) <<< 2 < 16)) ∧
    (16 ≤ w → 16 ≤ h →
      prepareResolution w h = Except.ok (w / 4 * 4, h / 4 * 4)) := by
  have hw : (w >>> 2) <<< 2 = w / 4 * 4 := by
    simp [Nat.shiftRight_eq_div_pow, Nat.shiftLeft_eq]
  have hh : (h >>> 2) <<< 2 = h / 4 * 4 := by
    simp [Nat.shiftRight_eq_div_pow, Nat.shiftLeft_eq]
  rw [hw, hh, prepareResolution_eq]
  rcases Nat.lt_or_ge w 16 with hw16 | hw16
  · have h1 : w / 4 * 4 < 16 := by omega
    rw [if_pos h1]
    refine ⟨?_, ?_, ?_⟩
    · constructor
      · intro habs; cases habs
      · intro hboth; exact absurd hboth.1 (by omega)
    · exact ⟨fun _ => Or.inl h1, fun _ => ⟨_, rfl⟩⟩
    · intro h16w _; exact absurd h16w (by omega)
  · have h1 : ¬ w / 4 * 4 < 16 := by omega
    rw [if_neg h1]
    rcases Nat.lt_or_ge h 16 with hh16 | hh16
    · have h2 : h / 4 * 4 < 16 := by omega
      rw [if_pos h2]
      refine ⟨?_, ?_, ?_⟩
      · constructor
        · intro habs; cases habs
        · intro hboth; exact absurd hboth.2 (by omega)
      · exact ⟨fun _ => Or.inr h2, fun _ => ⟨_, rfl⟩⟩
      · intro _ h16h; exact absurd h16h (by omega)
    · have h2 : ¬ h / 4 * 4 < 16 := by omega
      rw [if_neg h2]
      refine ⟨?_, ?_, ?_⟩
      · exact ⟨fun _ => ⟨hw16, hh16⟩, fun _ => rfl⟩
      · constructor
        · intro hex; obtain ⟨e, he⟩ := hex; cases he
        · intro hor; rcases hor with h3 | h3
          · exact absurd h3 h1
          · exact absurd h3 h2
      · intro _ _; rfl

/-- Witness for C6: 20 by 18 rounds to 20 by 16 and is accepted. -/
theorem resolution_rounding_and_min_witness :
    prepareResolution 20 18 = Except.ok (20, 16) :=
  (resolution_rounding_and_min 20 18).2.2 (by decide) (by decide)

/-- C7 counterexample: the plain MP4 muxer initialization
(src/muxer/mp4_muxer.cpp lines 42-46), which is the defaulting code run by
both the simple and the faststart MP4 muxers, replaces the metadata
extension with `.mp4` even when `audio_only` is set, not with `.m4a` as
the claim requires. -/
theorem mp4_default_filename_counterexample :
    mp4MuxerDefaultOutFilename { stem := "report", extension := ".json" } true =
      { stem := "report", extension := ".mp4" } ∧
    (".mp4" : String) ≠ ".m4a" :=
  ⟨rfl, by decide⟩

/-- C7 amended: when no output filename is configured, WebM muxers default
to the metadata path with extension `.webm`, or `.weba` in audio-only
mode; the plain MP4 muxer (simple and faststart) always defaults to
`.mp4` regardless of audio-only mode; only the multi-channel faststart MP4
muxer defaults to `.m4a` in audio-only mode and `.mp4` otherwise. -/
theorem default_out_filename_by_muxer (p : FsPath) (audioOnly : Bool) :
    asyncWebMDefaultOutFilename p audioOnly =
      { p with extension := if audioOnly then ".weba" else ".webm" } ∧
    mp4MuxerDefaultOutFilename p audioOnly = { p with extension := ".mp4" } ∧
    multiChannelFaststartMP4DefaultOutFilename p audioOnly =
      { p with extension := if audioOnly then ".m4a" else ".mp4" } := by
  cases audioOnly <;> exact ⟨rfl, rfl, rfl⟩

/-- C8 counterexample: in layout mode the success report is written as
`<UTC>_layout_success.json` (src/layout/compose.cpp lines 206-209): the
literal token `layout` appears where the claim requires the recording id,
so for a recording id other than `layout` the claimed name differs from
the actual one. -/
theorem layout_report_name_counterexample :
    layoutSuccessReportFilename "20251011T000000Z" =
      "20251011T000000Z_layout_success.json" ∧
    layoutSuccessReportFilename "20251011T000000Z" ≠
      mainSuccessReportFilename "20251011T000000Z" "rec-0" := by
  exact ⟨rfl, by decide⟩

/-- C8 amended: outside layout mode the reports are named
`<UTC>_<recording_id>_success.json` and `<UTC>_<recording_id>_failure.json`;
in layout mode the literal token `layout` takes the place of the recording
id, so the layout names coincide with the non-layout pattern exactly for
the recording id `layout`. -/
theorem report_filenames_by_mode (utc rid : String) :
    mainSuccessReportFilename utc rid = utc ++ "_" ++ rid ++ "_success.json" ∧
    mainFailureReportFilename utc rid = utc ++ "_" ++ rid ++ "_failure.json" ∧
    layoutSuccessReportFilename utc = utc ++ "_layout_success.json" ∧
    layoutFailureReportFilename utc = utc ++ "_layout_failure.json" ∧
    mainSuccessReportFilename utc "layout" = layoutSuccessReportFilename utc ∧
    mainFailureReportFilename utc "layout" = layoutFailureReportFilename utc := by
  refine ⟨rfl, rfl, rfl, rfl, ?_, ?_⟩ <;>
    · simp only [mainSuccessReportFilename, mainFailureReportFilename,
        layoutSuccessReportFilename, layoutFailureReportFilename]
      rw [String.append_assoc, String.append_assoc]
      rfl

/-- C10: releasing a Used cell before its end time is a no-op: status,
source and end time are all kept, and so are the construction-time fields. -/
theorem reset_before_end_time_noop (c : Cell) (t : Nat)
    (_hused : c.status = CellStatus.Used) (hlt : t < c.endTime) :
    c.resetSource t = c := by
  unfold Cell.resetSource
  rw [if_neg (by omega)]

/-- Witness for C10: a Used cell ending at 10 is unchanged by a release at
time 3. -/
theorem reset_before_end_time_noop_witness :
    Cell.resetSource
      { index := 0, status := CellStatus.Used,
        source := some ⟨0, 0, 10⟩, endTime := 10 } 3 =
      { index := 0, status := CellStatus.Used,
        source := some ⟨0, 0, 10⟩, endTime := 10 } :=
  reset_before_end_time_noop _ 3 rfl (by decide)

end Hisui
